import Mathlib

/-!
Shallow embedding of the DNS server sources (src/app/dns.py, src/app/main.py).

Byte buffers are modelled as `List Nat` whose entries are below 256 (Python
`bytes`).  Fallible Python code (a `raise`) is modelled with `Except Err`.
Each definition carries a comment naming the source function it embeds.
-/

namespace DnsSpec

/-- Error kinds corresponding to the exceptions raised by the source. -/
inductive Err where
  /-- ValueError: buffer smaller than expected bitfield size (dns.py line 66). -/
  | bufferTooShort
  /-- ValueError: field value out of bounds (dns.py line 29). -/
  | outOfRange
  /-- ValueError: label pointer uses unknown flags (dns.py line 195). -/
  | unknownLabelFlags
  /-- ValueError: label sequence contains a loop (dns.py line 199). -/
  | pointerLoop
  /-- ValueError: label pointer exceeds buffer size (dns.py line 201). -/
  | pointerOutOfRange
  /-- ValueError: name entry longer than 63 characters (dns.py line 158). -/
  | labelTooLong
  /-- ValueError: name entry does not obey DNS rules (dns.py line 161). -/
  | invalidLabel
  /-- ValueError raised by an IntEnum constructor on a non-member value. -/
  | invalidEnum
  /-- IndexError from indexing a bytes object out of range. -/
  | indexError
  /-- OverflowError from int.to_bytes when the value does not fit. -/
  | overflow
  /-- RecursionError: the Python interpreter aborts unbounded recursion. -/
  | recursionLimit
  /-- ValueError: cannot convert open request to response (main.py line 39). -/
  | notComplete
deriving DecidableEq, Repr

deriving instance DecidableEq for Except

/-- A Python `bytes` buffer: a list of byte values. -/
abbrev Bytes := List Nat

/-- Big-endian `int.from_bytes(buf)` (default byteorder is big). -/
def bytesToNat (l : Bytes) : Nat :=
  l.foldl (fun acc b => acc * 256 + b) 0

/-- Big-endian unsigned `n.to_bytes(k)`; the digits of `n` in base 256. -/
def natToBytes : Nat → Nat → Bytes
  | _, 0 => []
  | n, k + 1 => natToBytes (n / 256) k ++ [n % 256]

/-- `int.from_bytes(l, signed=True)`: two-complement signed interpretation. -/
def intFromBytesSigned (l : Bytes) : Int :=
  let n := bytesToNat l
  if 2 * n < 2 ^ (8 * l.length) then (n : Int) else (n : Int) - 2 ^ (8 * l.length)

/-- `v.to_bytes(k, signed=True)`: OverflowError when `v` does not fit. -/
def intToBytesSigned (v : Int) (k : Nat) : Except Err Bytes :=
  if v < -(2 ^ (8 * k - 1)) ∨ 2 ^ (8 * k - 1) ≤ v then .error .overflow
  else .ok (natToBytes (v.emod (2 ^ (8 * k))).toNat k)

/-!
### Bit-field codec (dns.py lines 20-128)

The source attaches a bit width to every dataclass field; we model a record
as the list of its `(width, value)` pairs in declaration order.
-/

/-- `_check_bit_fields` (dns.py lines 20-31): fail with the out-of-bounds
ValueError on the first field whose value is below 0 or above 2^width - 1.
Values are `Int` because Python ints may be negative. -/
def checkBitFields : List (Nat × Int) → Except Err Unit
  | [] => .ok ()
  | (w, v) :: rest =>
    if v < 0 ∨ (2 : Int) ^ w - 1 < v then .error .outOfRange
    else checkBitFields rest

/-- The inner `while current_width >= 8` loop of `BitField.pack` (dns.py
lines 118-122): repeatedly take the top 8 bits of `value` as a byte.  The
pattern `cw + 8` plays the role of the `current_width >= 8` test, with `cw`
bound to `current_width - 8`. -/
def drainBytes : Nat → Nat → Bytes × Nat × Nat
  | value, cw + 8 =>
    let b := value >>> cw
    let rest := drainBytes (value &&& (2 ^ cw - 1)) cw
    (b :: rest.1, rest.2.1, rest.2.2)
  | value, cw => ([], value, cw)

/-- The field loop of `BitField.pack` (dns.py lines 106-126): append each
field to the rolling integer, emit full bytes, and left-pad the final
partial byte with zero bits. -/
def packFieldsLoop : List (Nat × Nat) → Nat → Nat → Bytes
  | [], value, cw => if 0 < cw then [value <<< (8 - cw)] else []
  | (width, bits) :: rest, value, cw =>
    let v := (value <<< width) ||| bits
    let d := drainBytes v (cw + width)
    d.1 ++ packFieldsLoop rest d.2.1 d.2.2

/-- `BitField.pack` (dns.py lines 96-128). -/
def packBits (fields : List (Nat × Nat)) : Bytes :=
  packFieldsLoop fields 0 0

/-- Byte size of a bit-field record: `BitField.total_bytes`
(dns.py lines 40-45), `ceil(total_width / 8)`. -/
def totalBytes (ws : List Nat) : Nat :=
  (ws.foldl (· + ·) 0 + 7) / 8

/-- The inner `while current_width < width` loop of `BitField.unpack`
(dns.py lines 78-82): pull whole bytes from the buffer into the rolling
integer until at least `width` bits are available.  Returns the new
rolling value, bit count and offset. -/
def fillBits (buf : Bytes) (offset temp cw width : Nat) :
    Except Err (Nat × Nat × Nat) :=
  if cw < width then
    match buf[offset]? with
    | none => .error .indexError
    | some b => fillBits buf (offset + 1) ((temp <<< 8) ||| b) (cw + 8) width
  else .ok (temp, cw, offset)
termination_by width - cw
decreasing_by omega

/-- The field loop of `BitField.unpack` (dns.py lines 74-92): for each
field take the top `width` bits of the rolling integer and mask them off. -/
def unpackFieldsLoop (buf : Bytes) :
    List Nat → Nat → Nat → Nat → Except Err (List Nat × Nat)
  | [], offset, _, _ => .ok ([], offset)
  | width :: rest, offset, temp, cw =>
    match fillBits buf offset temp cw width with
    | .error e => .error e
    | .ok (temp', cw', offset') =>
      let v := temp' >>> (cw' - width)
      match unpackFieldsLoop buf rest offset' (temp' &&& (2 ^ (cw' - width) - 1))
          (cw' - width) with
      | .error e => .error e
      | .ok (vs, o) => .ok (v :: vs, o)

/-- `BitField.unpack` (dns.py lines 47-94): check the buffer size, then
decode every field in order; also returns the next offset. -/
def unpackBits (ws : List Nat) (buf : Bytes) (offset : Nat) :
    Except Err (List Nat × Nat) :=
  if buf.length - offset < totalBytes ws then .error .bufferTooShort
  else unpackFieldsLoop buf ws offset 0 0

/-!
### Header (dns.py lines 131-147)
-/

/-- The `Header` dataclass (dns.py lines 131-147), one `Nat` per bit field.
Wire values are naturals; the sign check of `_check_bit_fields` is modelled
separately over `Int` by `checkBitFields`. -/
structure Header where
  packet_identifier : Nat
  query_response : Nat
  operation_code : Nat
  authoritative_answer : Nat
  truncation : Nat
  recursion_desired : Nat
  recursion_available : Nat
  reserved : Nat
  response_code : Nat
  question_count : Nat
  answer_record_count : Nat
  authority_record_count : Nat
  additional_record_count : Nat
deriving DecidableEq, Repr

/-- The widths of the header bit fields, in declaration order. -/
def headerWidths : List Nat := [16, 1, 4, 1, 1, 1, 1, 3, 4, 16, 16, 16, 16]

/-- The `(width, value)` pairs of a header, in declaration order. -/
def headerFields (h : Header) : List (Nat × Nat) :=
  [(16, h.packet_identifier), (1, h.query_response), (4, h.operation_code),
   (1, h.authoritative_answer), (1, h.truncation), (1, h.recursion_desired),
   (1, h.recursion_available), (3, h.reserved), (4, h.response_code),
   (16, h.question_count), (16, h.answer_record_count),
   (16, h.authority_record_count), (16, h.additional_record_count)]

/-- The `__post_init__` validity invariant of a header: every field fits in
its declared width. -/
def Header.valid (h : Header) : Prop :=
  h.packet_identifier < 2 ^ 16 ∧ h.query_response < 2 ^ 1 ∧
  h.operation_code < 2 ^ 4 ∧ h.authoritative_answer < 2 ^ 1 ∧
  h.truncation < 2 ^ 1 ∧ h.recursion_desired < 2 ^ 1 ∧
  h.recursion_available < 2 ^ 1 ∧ h.reserved < 2 ^ 3 ∧
  h.response_code < 2 ^ 4 ∧ h.question_count < 2 ^ 16 ∧
  h.answer_record_count < 2 ^ 16 ∧ h.authority_record_count < 2 ^ 16 ∧
  h.additional_record_count < 2 ^ 16

instance (h : Header) : Decidable h.valid := by
  unfold Header.valid; infer_instance

/-- Checked header construction: `Header(...)` runs `__post_init__`, which
raises the out-of-bounds ValueError when a field exceeds its width
(negative values cannot occur on the `Nat`-typed paths that use this). -/
def mkHeader (pid qr op aa tc rd ra rz rc qc anc auc adc : Nat) :
    Except Err Header :=
  let h : Header := ⟨pid, qr, op, aa, tc, rd, ra, rz, rc, qc, anc, auc, adc⟩
  if h.valid then .ok h else .error .outOfRange

/-- `Header.pack` via the `BitField` mixin. -/
def Header.pack (h : Header) : Bytes :=
  packBits (headerFields h)

/-- `Header.unpack` via the `BitField` mixin: decode the thirteen fields and
rebuild the record. -/
def Header.unpack (buf : Bytes) (offset : Nat) : Except Err (Header × Nat) :=
  match unpackBits headerWidths buf offset with
  | .error e => .error e
  | .ok (vs, o) =>
    match vs with
    | [a, b, c, d, e, f, g, r, i, j, k, l, m] =>
      .ok (⟨a, b, c, d, e, f, g, r, i, j, k, l, m⟩, o)
    | _ => .error .indexError

/-!
### Label sequences (dns.py lines 150-221)
-/

/-- `[A-Za-z]`. -/
def isAlpha (b : Nat) : Bool :=
  (65 ≤ b && b ≤ 90) || (97 ≤ b && b ≤ 122)

/-- `[A-Za-z0-9-]`: letter, digit or hyphen. -/
def isLDH (b : Nat) : Bool :=
  isAlpha b || (48 ≤ b && b ≤ 57) || b == 45

/-- Full match of a label against the pattern
`[A-Za-z]([A-Za-z0-9-]*[A-Za-z])?` (dns.py line 160). -/
def labelGrammar : List Nat → Bool
  | [] => false
  | [c] => isAlpha c
  | c :: rest => isAlpha c && rest.dropLast.all isLDH && isAlpha (rest.getLastD 0)

/-- `LabelSequence.__new__` (dns.py lines 153-162): reject any label longer
than 63 bytes or violating the label grammar; the value is otherwise the
unchanged tuple of labels. -/
def mkLabelSeq : List (List Nat) → Except Err (List (List Nat))
  | [] => .ok []
  | l :: rest =>
    if 63 < l.length then .error .labelTooLong
    else if labelGrammar l then
      match mkLabelSeq rest with
      | .error e => .error e
      | .ok r => .ok (l :: r)
    else .error .invalidLabel

/-- The `while` loop of `LabelSequence.unpack` (dns.py lines 189-213).
`other` is the `other_offsets` set, holding the start offset of the current
call.  A pointer recurses into a fresh call whose set is re-seeded with just
the pointer target, exactly as the source passes no `other_offsets` argument
at dns.py line 204.  `fuel` models the finite resources of the Python
interpreter (the recursion limit): one unit is consumed per step, and
running out is the RecursionError; any terminating run of the source is
reproduced exactly by every sufficiently large fuel. -/
def lsWalk : Nat → Bytes → Nat → List Nat → Except Err (List (List Nat) × Nat)
  | 0, _, _, _ => .error .recursionLimit
  | f + 1, buf, offset, other =>
    match buf[offset]? with
    | none => .error .indexError
    | some size =>
      if size = 0 then .ok ([], offset + 1)
      else if size &&& 192 ≠ 0 then
        if size &&& 192 ≠ 192 then .error .unknownLabelFlags
        else
          let pointer := bytesToNat ((buf.drop offset).take 2) &&& 16383
          if pointer ∈ other then .error .pointerLoop
          else if buf.length < pointer then .error .pointerOutOfRange
          else
            match lsWalk f buf pointer [pointer] with
            | .error e => .error e
            | .ok (tail, _) =>
              match mkLabelSeq tail with
              | .error e => .error e
              | .ok t => .ok (t, offset + 2)
      else
        let label := (buf.drop (offset + 1)).take size
        match lsWalk f buf (offset + size + 1) other with
        | .error e => .error e
        | .ok (rest, o) => .ok (label :: rest, o)

/-- `LabelSequence.unpack` (dns.py lines 164-213) as called throughout the
source, with `other_offsets=None`: seed the visited set with the start
offset, walk the labels, and validate the result through the
`LabelSequence` constructor (the `cls(name)` at dns.py line 213). -/
def unpackLS (fuel : Nat) (buf : Bytes) (offset : Nat) :
    Except Err (List (List Nat) × Nat) :=
  match lsWalk fuel buf offset [offset] with
  | .error e => .error e
  | .ok (name, o) =>
    match mkLabelSeq name with
    | .error e => .error e
    | .ok n => .ok (n, o)

/-- `LabelSequence.pack` (dns.py lines 215-221): each label prefixed by its
length, terminated by a zero byte. -/
def packLS : List (List Nat) → Bytes
  | [] => [0]
  | l :: rest => (l.length :: l) ++ packLS rest

/-!
### Question (dns.py lines 224-307)
-/

/-- The members of the `QuestionType` IntEnum (dns.py lines 224-250). -/
def questionTypeValues : List Nat :=
  [1, 2, 3, 4, 5, 6, 7, 8, 9, 10, 11, 12, 13, 14, 15, 16, 252, 253, 254, 255]

/-- The members of the `QuestionClass` IntEnum (dns.py lines 253-264). -/
def questionClassValues : List Nat := [1, 2, 3, 4, 255]

/-- The `Question` frozen dataclass (dns.py lines 267-307).  `qtype` and
`qclass` hold the numeric enum values. -/
structure Question where
  name : List (List Nat)
  qtype : Nat
  qclass : Nat
deriving DecidableEq, Repr

/-- Checked `Question(...)` construction: `__post_init__` runs
`_check_bit_fields`, checking the two width-16 fields; `name` carries no
width metadata and is skipped. -/
def mkQuestion (name : List (List Nat)) (qt qc : Nat) : Except Err Question :=
  if qt < 2 ^ 16 ∧ qc < 2 ^ 16 then .ok ⟨name, qt, qc⟩ else .error .outOfRange

/-- `Question.unpack` (dns.py lines 279-302): decode the name, then convert
the two 16-bit values through the `QuestionType` and `QuestionClass` enum
constructors, which raise ValueError on a non-member value. -/
def Question.unpack (fuel : Nat) (buf : Bytes) (offset : Nat) :
    Except Err (Question × Nat) :=
  match unpackLS fuel buf offset with
  | .error e => .error e
  | .ok (name, o) =>
    let qt := bytesToNat ((buf.drop o).take 2)
    if qt ∈ questionTypeValues then
      let qc := bytesToNat ((buf.drop (o + 2)).take 2)
      if qc ∈ questionClassValues then
        match mkQuestion name qt qc with
        | .error e => .error e
        | .ok q => .ok (q, o + 4)
      else .error .invalidEnum
    else .error .invalidEnum

/-- `Question.pack` (dns.py lines 304-307).  The `to_bytes(2)` calls cannot
overflow because construction bounds both values below 2^16. -/
def Question.pack (q : Question) : Bytes :=
  packLS q.name ++ natToBytes q.qtype 2 ++ natToBytes q.qclass 2

/-!
### ResourceRecord (dns.py lines 310-395)
-/

/-- The members of the `AnswerType` IntEnum (dns.py lines 310-332). -/
def answerTypeValues : List Nat :=
  [1, 2, 3, 4, 5, 6, 7, 8, 9, 10, 11, 12, 13, 14, 15, 16]

/-- The members of the `AnswerClass` IntEnum (dns.py lines 335-341). -/
def answerClassValues : List Nat := [1, 2, 3, 4]

/-- The `ResourceRecord` dataclass (dns.py lines 344-356).  `ttl` is an
`Int` because `unpack` reads it with `signed=True`. -/
structure ResourceRecord where
  name : List (List Nat)
  atype : Nat
  aclass : Nat
  ttl : Int
  data : Bytes
deriving DecidableEq, Repr

/-- Checked `ResourceRecord(...)` construction: `__post_init__` runs
`_check_bit_fields` over `atype` (width 16), `aclass` (width 16) and `ttl`
(width 32); `name` and `data` carry no width metadata and are skipped.
In particular `ttl` must lie in `[0, 2^32 - 1]`. -/
def mkResourceRecord (name : List (List Nat)) (atype aclass : Nat)
    (ttl : Int) (data : Bytes) : Except Err ResourceRecord :=
  if atype < 2 ^ 16 ∧ aclass < 2 ^ 16 ∧ 0 ≤ ttl ∧ ttl ≤ 2 ^ 32 - 1 then
    .ok ⟨name, atype, aclass, ttl, data⟩
  else .error .outOfRange

/-- `ResourceRecord.unpack` (dns.py lines 358-385): decode the name,
narrow `atype`/`aclass` through the enum constructors, read `ttl` signed,
read `rdlength`, and slice `rdlength` bytes of data (a Python slice, which
silently truncates at the end of the buffer).  The returned next offset is
`o + rdlength + 10` regardless of the buffer length. -/
def ResourceRecord.unpack (fuel : Nat) (buf : Bytes) (offset : Nat) :
    Except Err (ResourceRecord × Nat) :=
  match unpackLS fuel buf offset with
  | .error e => .error e
  | .ok (name, o) =>
    let atv := bytesToNat ((buf.drop o).take 2)
    if atv ∈ answerTypeValues then
      let acv := bytesToNat ((buf.drop (o + 2)).take 2)
      if acv ∈ answerClassValues then
        let ttl := intFromBytesSigned ((buf.drop (o + 4)).take 4)
        let rdlen := bytesToNat ((buf.drop (o + 8)).take 2)
        let data := (buf.drop (o + 10)).take rdlen
        match mkResourceRecord name atv acv ttl data with
        | .error e => .error e
        | .ok rr => .ok (rr, o + rdlen + 10)
      else .error .invalidEnum
    else .error .invalidEnum

/-- `ResourceRecord.pack` (dns.py lines 387-395): `ttl.to_bytes(4,
signed=True)` raises OverflowError for `ttl` at or above 2^31, so packing
is fallible even for constructible records. -/
def ResourceRecord.pack (rr : ResourceRecord) : Except Err Bytes :=
  match intToBytesSigned rr.ttl 4 with
  | .error e => .error e
  | .ok tb =>
    .ok (packLS rr.name ++ natToBytes rr.atype 2 ++ natToBytes rr.aclass 2 ++
      tb ++ natToBytes rr.data.length 2 ++ rr.data)

/-!
### Packet (dns.py lines 398-455)
-/

/-- The `Packet` dataclass (dns.py lines 398-404). -/
structure Packet where
  header : Header
  questions : List Question
  answers : List ResourceRecord
deriving DecidableEq, Repr

/-- `Packet(...)` construction with `auto_set_header=True` (dns.py lines
406-418): `dataclasses.replace` rebuilds the header with the four counts
synchronized, re-running `__post_init__` and hence the width checks. -/
def mkPacketAuto (header : Header) (questions : List Question)
    (answers : List ResourceRecord) : Except Err Packet :=
  match mkHeader header.packet_identifier header.query_response
      header.operation_code header.authoritative_answer header.truncation
      header.recursion_desired header.recursion_available header.reserved
      header.response_code questions.length answers.length 0 0 with
  | .error e => .error e
  | .ok h => .ok ⟨h, questions, answers⟩

/-- The question loop of `Packet.unpack` (dns.py lines 441-444). -/
def unpackQuestions (fuel : Nat) (buf : Bytes) :
    Nat → Nat → Except Err (List Question × Nat)
  | 0, offset => .ok ([], offset)
  | n + 1, offset =>
    match Question.unpack fuel buf offset with
    | .error e => .error e
    | .ok (q, o) =>
      match unpackQuestions fuel buf n o with
      | .error e => .error e
      | .ok (qs, o') => .ok (q :: qs, o')

/-- `Packet.unpack` (dns.py lines 420-446): decode the header and
`question_count` questions; the answers section is never decoded and the
`answers` field keeps its empty default. -/
def Packet.unpack (fuel : Nat) (buf : Bytes) (offset : Nat) :
    Except Err (Packet × Nat) :=
  match Header.unpack buf offset with
  | .error e => .error e
  | .ok (h, o) =>
    match unpackQuestions fuel buf h.question_count o with
    | .error e => .error e
    | .ok (qs, o') => .ok (⟨h, qs, []⟩, o')

/-!
### The forwarder state (main.py lines 12-54, 129-146)
-/

/-- Assignment into a Python dict that iterates in insertion order,
modelled on an association list: replace the value at an existing key, or
append a fresh entry at the end. -/
def dictInsert : List (Question × Option ResourceRecord) → Question →
    Option ResourceRecord → List (Question × Option ResourceRecord)
  | [], k, v => [(k, v)]
  | (k', v') :: rest, k, v =>
    if k' = k then (k', v) :: rest else (k', v') :: dictInsert rest k v

/-- `OpenRequest` (main.py lines 12-19): the client address, the original
request, and the per-question answer slots (a dict keyed by question). -/
structure OpenRequest where
  source : String × Nat
  request : Packet
  answers : List (Question × Option ResourceRecord)
deriving DecidableEq, Repr

/-- `OpenRequest.__init__` (main.py lines 15-19): one `None` slot per
question, keyed by the question value (duplicates collapse). -/
def openRequestInit (source : String × Nat) (request : Packet) :
    OpenRequest :=
  ⟨source, request,
   request.questions.foldl (fun m q => dictInsert m q none) []⟩

/-- `OpenRequest.is_complete` (main.py lines 24-27). -/
def OpenRequest.is_complete (o : OpenRequest) : Bool :=
  o.answers.all fun p => p.2.isSome

/-- The answer loop of `OpenRequest.add_response` (main.py lines 29-34):
the slot key is built as `Question(answer.name, QuestionType(answer.atype),
QuestionClass(answer.atype))`, passing `atype` to both enum constructors,
which raise ValueError on non-member values. -/
def addAnswers : List (Question × Option ResourceRecord) →
    List ResourceRecord → Except Err (List (Question × Option ResourceRecord))
  | m, [] => .ok m
  | m, a :: rest =>
    if a.atype ∈ questionTypeValues then
      if a.atype ∈ questionClassValues then
        match mkQuestion a.name a.atype a.atype with
        | .error e => .error e
        | .ok q => addAnswers (dictInsert m q (some a)) rest
      else .error .invalidEnum
    else .error .invalidEnum

/-- `OpenRequest.add_response` (main.py lines 29-34). -/
def OpenRequest.add_response (o : OpenRequest) (response : Packet) :
    Except Err OpenRequest :=
  match addAnswers o.answers response.answers with
  | .error e => .error e
  | .ok m => .ok { o with answers := m }

/-- `OpenRequest.to_response` (main.py lines 36-54): refuse when
incomplete; otherwise synthesize the reply header, echo the original
questions, list the resolved records in slot order, and auto-fill the
counts. -/
def OpenRequest.to_response (o : OpenRequest) : Except Err Packet :=
  if o.is_complete then
    let response_code : Nat :=
      if o.request.header.operation_code = 0 then 0 else 4
    match mkHeader o.request.header.packet_identifier 1
        o.request.header.operation_code 0 0
        o.request.header.recursion_desired 0 0 response_code 0 0 0 0 with
    | .error e => .error e
    | .ok h => mkPacketAuto h o.request.questions (o.answers.filterMap (·.2))
  else .error .notComplete

/-- The completion check of the main loop (main.py lines 138-146): a reply
packet is sent to the client exactly when the open request is complete. -/
def completionStep (o : OpenRequest) : Except Err (Option Packet) :=
  if o.is_complete then
    match o.to_response with
    | .error e => .error e
    | .ok p => .ok (some p)
  else .ok none

/-- The default-answer loop of the no-resolver path (main.py lines
129-136): slot `i` receives `ResourceRecord(question.name, A, IN,
123 + 10 * i, bytes 01 02 03 04)`. -/
def fillDefaultsLoop : List (Question × Option ResourceRecord) → Nat →
    List Question → Except Err (List (Question × Option ResourceRecord))
  | m, _, [] => .ok m
  | m, i, q :: rest =>
    match mkResourceRecord q.name 1 1 ((123 + 10 * i : Nat) : Int)
        [1, 2, 3, 4] with
    | .error e => .error e
    | .ok rr => fillDefaultsLoop (dictInsert m q (some rr)) (i + 1) rest

/-- The no-resolver branch of the main loop (main.py lines 128-136). -/
def fillDefaults (o : OpenRequest) : Except Err OpenRequest :=
  match fillDefaultsLoop o.answers 0 o.request.questions with
  | .error e => .error e
  | .ok m => .ok { o with answers := m }

/-!
### Arithmetic lemmas about the bit-field codec
-/

/-- Appending `b` below a left-shifted value is addition when `b` fits. -/
theorem orShiftEq {b w : Nat} (hb : b < 2 ^ w) (a : Nat) :
    (a <<< w) ||| b = a * 2 ^ w + b := by
  rw [Nat.shiftLeft_eq, Nat.mul_comm, ← Nat.mul_add_lt_is_or hb, Nat.mul_comm]

theorem and255 (x : Nat) : x &&& 255 = x % 256 :=
  Nat.and_pow_two_sub_one_eq_mod x 8

theorem and127 (x : Nat) : x &&& 127 = x % 128 :=
  Nat.and_pow_two_sub_one_eq_mod x 7

theorem and15 (x : Nat) : x &&& 15 = x % 16 :=
  Nat.and_pow_two_sub_one_eq_mod x 4

theorem and7 (x : Nat) : x &&& 7 = x % 8 :=
  Nat.and_pow_two_sub_one_eq_mod x 3

theorem and3 (x : Nat) : x &&& 3 = x % 4 :=
  Nat.and_pow_two_sub_one_eq_mod x 2

/-- A valid header packs to these twelve bytes (big-endian, fields packed
MSB-first in declaration order). -/
theorem header_pack_arith (h : Header) (hv : h.valid) :
    Header.pack h =
    [h.packet_identifier / 256, h.packet_identifier % 256,
     h.query_response * 128 + h.operation_code * 8 +
       h.authoritative_answer * 4 + h.truncation * 2 + h.recursion_desired,
     h.recursion_available * 128 + h.reserved * 16 + h.response_code,
     h.question_count / 256, h.question_count % 256,
     h.answer_record_count / 256, h.answer_record_count % 256,
     h.authority_record_count / 256, h.authority_record_count % 256,
     h.additional_record_count / 256, h.additional_record_count % 256] := by
  obtain ⟨v1, v2, v3, v4, v5, v6, v7, v8, v9, v10, v11, v12, v13⟩ := hv
  simp [Header.pack, packBits, headerFields, packFieldsLoop, drainBytes,
    orShiftEq v3, orShiftEq v4, orShiftEq v5, orShiftEq v6, orShiftEq v8,
    orShiftEq v9, and255, Nat.shiftRight_eq_div_pow]
  omega

/-- Decoding twelve abstract bytes extracts each header field as the
corresponding div/mod arithmetic on the bytes. -/
theorem header_unpack12 (b0 b1 b2 b3 b4 b5 b6 b7 b8 b9 b10 b11 : Nat)
    (h1 : b1 < 2 ^ 8) (h3 : b3 < 2 ^ 8) (h5 : b5 < 2 ^ 8) (h7 : b7 < 2 ^ 8)
    (h9 : b9 < 2 ^ 8) (h11 : b11 < 2 ^ 8) :
    Header.unpack [b0, b1, b2, b3, b4, b5, b6, b7, b8, b9, b10, b11] 0 =
    .ok (⟨b0 * 256 + b1, b2 / 128, b2 / 8 % 16, b2 / 4 % 2, b2 / 2 % 2,
          b2 % 2, b3 / 128, b3 / 16 % 8, b3 % 16, b4 * 256 + b5,
          b6 * 256 + b7, b8 * 256 + b9, b10 * 256 + b11⟩, 12) := by
  simp [Header.unpack, unpackBits, totalBytes, headerWidths, unpackFieldsLoop,
    fillBits, orShiftEq h1, orShiftEq h3, orShiftEq h5, orShiftEq h7,
    orShiftEq h9, orShiftEq h11, and255, and127, and15, and7, and3,
    Nat.shiftRight_eq_div_pow]
  omega

/-- Packing a valid header and decoding the result restores the header. -/
theorem header_roundtrip (h : Header) (hv : h.valid) :
    Header.unpack (Header.pack h) 0 = .ok (h, 12) := by
  obtain ⟨v1, v2, v3, v4, v5, v6, v7, v8, v9, v10, v11, v12, v13⟩ := hv
  rw [header_pack_arith h
      ⟨v1, v2, v3, v4, v5, v6, v7, v8, v9, v10, v11, v12, v13⟩,
    header_unpack12 _ _ _ _ _ _ _ _ _ _ _ _ (by omega) (by omega) (by omega)
      (by omega) (by omega) (by omega)]
  cases h
  simp_all
  omega

/-- A valid header packs to exactly twelve bytes. -/
theorem header_pack_length (h : Header) (hv : h.valid) :
    (Header.pack h).length = 12 := by
  rw [header_pack_arith h hv]
  rfl

/-- All fields in range makes `_check_bit_fields` succeed. -/
theorem checkBitFields_ok (fields : List (Nat × Int))
    (hf : ∀ p ∈ fields, 0 ≤ p.2 ∧ p.2 ≤ 2 ^ p.1 - 1) :
    checkBitFields fields = .ok () := by
  induction fields with
  | nil => rfl
  | cons p rest ih =>
    have hp := hf p (by simp)
    rw [checkBitFields]
    rw [if_neg (by omega)]
    exact ih fun q hq => hf q (by simp [hq])

/-- Any field out of range makes `_check_bit_fields` raise the
out-of-bounds ValueError. -/
theorem checkBitFields_err (fields : List (Nat × Int))
    (hf : ∃ p ∈ fields, p.2 < 0 ∨ 2 ^ p.1 - 1 < p.2) :
    checkBitFields fields = .error .outOfRange := by
  induction fields with
  | nil => simp at hf
  | cons p rest ih =>
    rw [checkBitFields]
    by_cases hp : p.2 < 0 ∨ (2 : Int) ^ p.1 - 1 < p.2
    · rw [if_pos hp]
    · rw [if_neg hp]
      apply ih
      rcases hf with ⟨q, hq, hqr⟩
      rcases List.mem_cons.mp hq with rfl | hq'
      · exact absurd hqr hp
      · exact ⟨q, hq', hqr⟩

/-- The fill loop of `BitField.unpack` keeps the rolling value below
`2 ^ current_width`, and reaches at least `width` bits, whenever the buffer
holds genuine bytes. -/
theorem fillBits_bound (buf : Bytes) (hbuf : ∀ b ∈ buf, b < 256) :
    ∀ gas offset temp cw width t' c' o', width - cw ≤ gas → temp < 2 ^ cw →
      fillBits buf offset temp cw width = .ok (t', c', o') →
      t' < 2 ^ c' ∧ width ≤ c' := by
  intro gas
  induction gas with
  | zero =>
    intro o t c w t' c' o' hg ht heq
    rw [fillBits, if_neg (by omega)] at heq
    cases heq
    exact ⟨ht, by omega⟩
  | succ gas ih =>
    intro o t c w t' c' o' hg ht heq
    rw [fillBits] at heq
    by_cases hc : c < w
    · rw [if_pos hc] at heq
      cases hb : buf[o]? with
      | none => rw [hb] at heq; cases heq
      | some b =>
        rw [hb] at heq
        have hblt : b < 2 ^ 8 := hbuf b (List.getElem?_mem hb)
        refine ih (o + 1) ((t <<< 8) ||| b) (c + 8) w t' c' o' (by omega) ?_ heq
        rw [orShiftEq hblt]
        have : 2 ^ (c + 8) = 2 ^ c * 2 ^ 8 := by rw [Nat.pow_add]
        omega
    · rw [if_neg hc] at heq
      cases heq
      exact ⟨ht, by omega⟩

/-- Every value produced by the field loop of `BitField.unpack` fits in the
width of its field. -/
theorem unpackFieldsLoop_bound (buf : Bytes) (hbuf : ∀ b ∈ buf, b < 256) :
    ∀ ws offset temp cw vs o', temp < 2 ^ cw →
      unpackFieldsLoop buf ws offset temp cw = .ok (vs, o') →
      ∀ p ∈ ws.zip vs, p.2 < 2 ^ p.1 := by
  intro ws
  induction ws with
  | nil =>
    intro o t c vs o' ht heq p hp
    cases heq
    simp at hp
  | cons w rest ih =>
    intro o t c vs o' ht heq p hp
    rw [unpackFieldsLoop] at heq
    cases hfill : fillBits buf o t c w with
    | error e => rw [hfill] at heq; cases heq
    | ok r =>
      obtain ⟨t', c', o''⟩ := r
      rw [hfill] at heq
      dsimp only at heq
      obtain ⟨htb, hwc⟩ :=
        fillBits_bound buf hbuf (w - c) o t c w t' c' o'' (by omega) ht hfill
      cases htail : unpackFieldsLoop buf rest o''
          (t' &&& (2 ^ (c' - w) - 1)) (c' - w) with
      | error e => rw [htail] at heq; cases heq
      | ok r' =>
        obtain ⟨vs', o3⟩ := r'
        rw [htail] at heq
        cases heq
        rcases List.mem_cons.mp hp with rfl | hp'
        · show t' >>> (c' - w) < 2 ^ w
          rw [Nat.shiftRight_eq_div_pow]
          rw [Nat.div_lt_iff_lt_mul (Nat.pos_pow_of_pos _ (by omega))]
          calc t' < 2 ^ c' := htb
            _ = 2 ^ w * 2 ^ (c' - w) := by
                rw [← Nat.pow_add]
                congr 1
                omega
        · refine ih o'' (t' &&& (2 ^ (c' - w) - 1)) (c' - w) _ _ ?_ htail p hp'
          rw [Nat.and_pow_two_sub_one_eq_mod]
          exact Nat.mod_lt _ (Nat.pos_pow_of_pos _ (by omega))

/-- `BitField.unpack` never produces an out-of-range field value: each
decoded value is below `2 ^ width` for its field. -/
theorem unpackBits_in_range (ws : List Nat) (buf : Bytes) (offset : Nat)
    (hbuf : ∀ b ∈ buf, b < 256) (vs : List Nat) (o' : Nat)
    (heq : unpackBits ws buf offset = .ok (vs, o')) :
    ∀ p ∈ ws.zip vs, p.2 < 2 ^ p.1 := by
  rw [unpackBits] at heq
  split at heq
  · cases heq
  · exact unpackFieldsLoop_bound buf hbuf ws offset 0 0 vs o' (by simp) heq

/-!
### Supporting lemmas about label decoding
-/

/-- On the two-pointer cycle `C0 02 C0 00` the walk exhausts any amount of
fuel: the visited set is re-seeded at each pointer target, so neither call
ever detects the revisit. -/
theorem lsWalk_cycle (f : Nat) :
    lsWalk f [192, 2, 192, 0] 0 [0] = .error .recursionLimit ∧
    lsWalk f [192, 2, 192, 0] 2 [2] = .error .recursionLimit := by
  induction f with
  | zero => exact ⟨rfl, rfl⟩
  | succ f ih =>
    refine ⟨?_, ?_⟩
    · rw [lsWalk]
      simp [bytesToNat, show 49154 &&& 16383 = 2 from by decide, ih.2]
    · rw [lsWalk]
      simp [bytesToNat, show 49152 &&& 16383 = 0 from by decide, ih.1]

/-- `LabelSequence.__new__` returns its labels unchanged and succeeds
exactly on labels passing the length and grammar checks. -/
theorem mkLabelSeq_ok {xs ys : List (List Nat)} (h : mkLabelSeq xs = .ok ys) :
    ys = xs ∧ ∀ l ∈ xs, l.length ≤ 63 ∧ labelGrammar l = true := by
  induction xs generalizing ys with
  | nil => cases h; exact ⟨rfl, by simp⟩
  | cons l rest ih =>
    rw [mkLabelSeq] at h
    split at h
    · cases h
    · split at h
      · cases hrec : mkLabelSeq rest with
        | error e => rw [hrec] at h; cases h
        | ok r =>
          rw [hrec] at h
          cases h
          obtain ⟨hr, hall⟩ := ih hrec
          subst hr
          refine ⟨rfl, ?_⟩
          intro l' hl'
          rcases List.mem_cons.mp hl' with rfl | hl'
          · exact ⟨by omega, by assumption⟩
          · exact hall l' hl'
      · cases h

/-- Entries of a dict after assignment: the new pair or an old entry. -/
theorem dictInsert_mem {m : List (Question × Option ResourceRecord)}
    {k : Question} {v : Option ResourceRecord} {p : Question × Option ResourceRecord}
    (hp : p ∈ dictInsert m k v) : p = (k, v) ∨ p ∈ m := by
  induction m with
  | nil => simpa [dictInsert] using hp
  | cons q rest ih =>
    obtain ⟨k', v'⟩ := q
    rw [dictInsert] at hp
    by_cases he : k' = k
    · rw [if_pos he] at hp
      rcases List.mem_cons.mp hp with rfl | hp'
      · left; rw [he]
      · right; exact List.mem_cons_of_mem _ hp'
    · rw [if_neg he] at hp
      rcases List.mem_cons.mp hp with rfl | hp'
      · right; exact List.mem_cons_self _ _
      · rcases ih hp' with h | h
        · left; exact h
        · right; exact List.mem_cons_of_mem _ h

/-- Assigning to an existing key leaves the key list unchanged. -/
theorem dictInsert_keys_mem {m : List (Question × Option ResourceRecord)}
    {k : Question} {v : Option ResourceRecord}
    (hk : k ∈ m.map Prod.fst) :
    (dictInsert m k v).map Prod.fst = m.map Prod.fst := by
  induction m with
  | nil => simp at hk
  | cons q rest ih =>
    obtain ⟨k', v'⟩ := q
    rw [dictInsert]
    by_cases he : k' = k
    · rw [if_pos he]
      simp
    · rw [if_neg he]
      simp only [List.map_cons]
      rw [ih]
      simp only [List.map_cons, List.mem_cons] at hk
      rcases hk with h | h
      · exact absurd h.symm he
      · exact h

/-- Assigning to a fresh key appends it to the key list. -/
theorem dictInsert_keys_new {m : List (Question × Option ResourceRecord)}
    {k : Question} {v : Option ResourceRecord}
    (hk : k ∉ m.map Prod.fst) :
    (dictInsert m k v).map Prod.fst = m.map Prod.fst ++ [k] := by
  induction m with
  | nil => simp [dictInsert]
  | cons q rest ih =>
    obtain ⟨k', v'⟩ := q
    simp only [List.map_cons, List.mem_cons] at hk
    push_neg at hk
    rw [dictInsert, if_neg (fun he => hk.1 he.symm)]
    simp only [List.map_cons, List.cons_append]
    rw [ih hk.2]

/-- Dict assignment preserves distinctness of the keys. -/
theorem dictInsert_keys_nodup {m : List (Question × Option ResourceRecord)}
    {k : Question} {v : Option ResourceRecord}
    (hm : (m.map Prod.fst).Nodup) :
    ((dictInsert m k v).map Prod.fst).Nodup := by
  by_cases hk : k ∈ m.map Prod.fst
  · rw [dictInsert_keys_mem hk]; exact hm
  · rw [dictInsert_keys_new hk]
    simp [List.nodup_append, hm, hk]

/-- With distinct keys, the entry at the assigned key holds the new value. -/
theorem dictInsert_val_of_nodup {m : List (Question × Option ResourceRecord)}
    {k : Question} {v : Option ResourceRecord}
    {p : Question × Option ResourceRecord}
    (hm : (m.map Prod.fst).Nodup) (hp : p ∈ dictInsert m k v)
    (hk : p.1 = k) : p.2 = v := by
  induction m with
  | nil =>
    simp [dictInsert] at hp
    rw [hp]
  | cons q rest ih =>
    obtain ⟨k', v'⟩ := q
    simp only [List.map_cons, List.nodup_cons] at hm
    rw [dictInsert] at hp
    by_cases he : k' = k
    · rw [if_pos he] at hp
      rcases List.mem_cons.mp hp with rfl | hp'
      · rfl
      · exfalso
        apply hm.1
        have hmem : p.1 ∈ List.map Prod.fst rest :=
          List.mem_map_of_mem Prod.fst hp'
        rw [hk, ← he] at hmem
        exact hmem
    · rw [if_neg he] at hp
      rcases List.mem_cons.mp hp with rfl | hp'
      · exact absurd hk he
      · exact ih hm.2 hp'

/-- The slot dict built by `OpenRequest.__init__` has distinct keys, and
its keys are exactly the questions of the request. -/
theorem slots_spec (qs : List Question) :
    ∀ m : List (Question × Option ResourceRecord), (m.map Prod.fst).Nodup →
      (((qs.foldl (fun m q => dictInsert m q none) m).map Prod.fst).Nodup ∧
       ∀ x, x ∈ (qs.foldl (fun m q => dictInsert m q none) m).map Prod.fst ↔
         x ∈ m.map Prod.fst ∨ x ∈ qs) := by
  induction qs with
  | nil =>
    intro m hm
    exact ⟨hm, fun x => by simp⟩
  | cons q rest ih =>
    intro m hm
    rw [List.foldl_cons]
    obtain ⟨hnd, hmem⟩ := ih (dictInsert m q none) (dictInsert_keys_nodup hm)
    refine ⟨hnd, fun x => ?_⟩
    rw [hmem x]
    by_cases hq : q ∈ m.map Prod.fst
    · rw [dictInsert_keys_mem hq]
      simp only [List.mem_cons]
      constructor
      · rintro (h | h)
        · exact Or.inl h
        · exact Or.inr (Or.inr h)
      · rintro (h | rfl | h)
        · exact Or.inl h
        · exact Or.inl hq
        · exact Or.inr h
    · rw [dictInsert_keys_new hq]
      simp only [List.mem_append, List.mem_cons, List.not_mem_nil, or_false]
      constructor
      · rintro ((h | rfl) | h)
        · exact Or.inl h
        · exact Or.inr (Or.inl rfl)
        · exact Or.inr (Or.inr h)
      · rintro (h | rfl | h)
        · exact Or.inl (Or.inl h)
        · exact Or.inl (Or.inr rfl)
        · exact Or.inr h

/-- The default-answer loop succeeds whenever the ttl values stay in
range, which holds for any wire-sized question count. -/
theorem fillLoop_ok (qs : List Question) :
    ∀ (m : List (Question × Option ResourceRecord)) (i : Nat),
      i + qs.length ≤ 2 ^ 16 →
      ∃ m', fillDefaultsLoop m i qs = .ok m' := by
  induction qs with
  | nil => intro m i _; exact ⟨m, rfl⟩
  | cons q rest ih =>
    intro m i hi
    rw [fillDefaultsLoop]
    rw [show mkResourceRecord q.name 1 1 ((123 + 10 * i : Nat) : Int)
        [1, 2, 3, 4] = .ok ⟨q.name, 1, 1, ((123 + 10 * i : Nat) : Int),
          [1, 2, 3, 4]⟩ from by
      rw [mkResourceRecord, if_pos]
      refine ⟨by omega, by omega, by positivity, ?_⟩
      have : i ≤ 2 ^ 16 := by simp at hi; omega
      push_cast
      omega]
    exact ih (dictInsert m q (some ⟨q.name, 1, 1, ((123 + 10 * i : Nat) : Int),
      [1, 2, 3, 4]⟩)) (i + 1) (by simp at hi ⊢; omega)

/-- The default-answer loop only assigns existing keys, so the key list is
unchanged. -/
theorem fillLoop_keys (qs : List Question) :
    ∀ (m : List (Question × Option ResourceRecord)) (i : Nat) m',
      fillDefaultsLoop m i qs = .ok m' →
      (∀ q ∈ qs, q ∈ m.map Prod.fst) →
      m'.map Prod.fst = m.map Prod.fst := by
  induction qs with
  | nil => intro m i m' h _; cases h; rfl
  | cons q rest ih =>
    intro m i m' h hq
    rw [fillDefaultsLoop] at h
    cases hmk : mkResourceRecord q.name 1 1 ((123 + 10 * i : Nat) : Int)
        [1, 2, 3, 4] with
    | error e => rw [hmk] at h; cases h
    | ok rr =>
      rw [hmk] at h
      have hkeys : (dictInsert m q (some rr)).map Prod.fst = m.map Prod.fst :=
        dictInsert_keys_mem (hq q (by simp))
      rw [ih (dictInsert m q (some rr)) (i + 1) m' h
        (fun q' hq' => by rw [hkeys]; exact hq q' (by simp [hq'])), hkeys]

/-- After the default-answer loop, every slot keyed by a processed
question is resolved, and other entries are untouched. -/
theorem fillLoop_vals (qs : List Question) :
    ∀ (m : List (Question × Option ResourceRecord)) (i : Nat) m',
      (m.map Prod.fst).Nodup →
      fillDefaultsLoop m i qs = .ok m' →
      ∀ p ∈ m', (p.1 ∈ qs → p.2.isSome) ∧ (p.1 ∉ qs → p ∈ m) := by
  induction qs with
  | nil =>
    intro m i m' _ h p hp
    cases h
    exact ⟨by simp, fun _ => hp⟩
  | cons q rest ih =>
    intro m i m' hm h p hp
    rw [fillDefaultsLoop] at h
    cases hmk : mkResourceRecord q.name 1 1 ((123 + 10 * i : Nat) : Int)
        [1, 2, 3, 4] with
    | error e => rw [hmk] at h; cases h
    | ok rr =>
      rw [hmk] at h
      obtain ⟨h1, h2⟩ := ih (dictInsert m q (some rr)) (i + 1) m'
        (dictInsert_keys_nodup hm) h p hp
      constructor
      · intro hmem
        by_cases hr : p.1 ∈ rest
        · exact h1 hr
        · have hpq : p.1 = q := by
            rcases List.mem_cons.mp hmem with h | h
            · exact h
            · exact absurd h hr
          have := dictInsert_val_of_nodup hm (h2 hr) hpq
          rw [this]
          rfl
      · intro hmem
        simp only [List.mem_cons] at hmem
        push_neg at hmem
        rcases dictInsert_mem (h2 hmem.2) with heq | hin
        · exact absurd (congrArg Prod.fst heq) hmem.1
        · exact hin

theorem filterMap_isSome_length
    (m : List (Question × Option ResourceRecord))
    (h : ∀ p ∈ m, p.2.isSome) :
    (m.filterMap (fun s => s.2)).length = m.length := by
  induction m with
  | nil => rfl
  | cons p rest ih =>
    have hp := h p (by simp)
    rw [List.filterMap_cons]
    cases hv : p.2 with
    | none => rw [hv] at hp; simp at hp
    | some r =>
      simp only [List.length_cons]
      rw [ih fun q hq => h q (by simp [hq])]

/-- A distinct key list drawn from a list with duplicates is strictly
shorter than that list. -/
theorem keys_length_lt (keys qs : List Question)
    (hnd : keys.Nodup) (hmem : ∀ x, x ∈ keys ↔ x ∈ qs)
    (hdup : ¬ qs.Nodup) : keys.length < qs.length := by
  have h1 : keys.Perm qs.dedup :=
    (List.perm_ext_iff_of_nodup hnd (List.nodup_dedup qs)).mpr
      (fun x => by rw [hmem x, List.mem_dedup])
  have h2 : keys.length = qs.dedup.length := h1.length_eq
  have h3 : qs.dedup.length ≤ qs.length := (List.dedup_sublist qs).length_le
  rcases Nat.lt_or_ge qs.dedup.length qs.length with h | h
  · omega
  · exfalso
    have heq : qs.dedup = qs := (List.dedup_sublist qs).eq_of_length (by omega)
    exact hdup (heq ▸ List.nodup_dedup qs)

/-- `OpenRequest.to_response` on a complete, wire-sized open request:
the synthesized reply spelled out. -/
theorem to_response_ok (o : OpenRequest) (hc : o.is_complete = true)
    (hpid : o.request.header.packet_identifier < 2 ^ 16)
    (hop : o.request.header.operation_code < 2 ^ 4)
    (hrd : o.request.header.recursion_desired < 2 ^ 1)
    (hq : o.request.questions.length < 2 ^ 16)
    (ha : o.answers.length < 2 ^ 16) :
    o.to_response = .ok
      ⟨⟨o.request.header.packet_identifier, 1,
        o.request.header.operation_code, 0, 0,
        o.request.header.recursion_desired, 0, 0,
        (if o.request.header.operation_code = 0 then 0 else 4),
        o.request.questions.length,
        (o.answers.filterMap (fun s => s.2)).length, 0, 0⟩,
       o.request.questions, o.answers.filterMap (fun s => s.2)⟩ := by
  have hrc : (if o.request.header.operation_code = 0 then (0 : Nat)
      else 4) < 2 ^ 4 := by split <;> omega
  have hal : (o.answers.filterMap (fun s => s.2)).length < 2 ^ 16 :=
    lt_of_le_of_lt (List.length_filterMap_le _ _) ha
  rw [OpenRequest.to_response, if_pos hc]
  dsimp only
  rw [show mkHeader o.request.header.packet_identifier 1
      o.request.header.operation_code 0 0
      o.request.header.recursion_desired 0 0
      (if o.request.header.operation_code = 0 then 0 else 4) 0 0 0 0 =
      .ok ⟨o.request.header.packet_identifier, 1,
        o.request.header.operation_code, 0, 0,
        o.request.header.recursion_desired, 0, 0,
        (if o.request.header.operation_code = 0 then 0 else 4),
        0, 0, 0, 0⟩ from by
    rw [mkHeader, if_pos]
    dsimp only [Header.valid]
    exact ⟨hpid, by omega, hop, by omega, by omega, hrd, by omega,
      by omega, hrc, by omega, by omega, by omega, by omega⟩]
  dsimp only
  rw [mkPacketAuto.eq_def]
  dsimp only
  rw [mkHeader, if_pos]
  dsimp only [Header.valid]
  exact ⟨hpid, by omega, hop, by omega, by omega, hrd, by omega,
    by omega, hrc, hq, hal, by omega, by omega⟩

/-!
### Claim theorems
-/

/-- C3: the claim says any compression-pointer chain revisiting a seen
offset fails with POINTER_LOOP because the visited set is propagated into
the recursion.  The code does not propagate the set (dns.py line 204 calls
`LabelSequence.unpack(buf, pointer)` without `other_offsets`), so on the
two-pointer cycle `C0 02 C0 00` the decoder recurses unboundedly — for
every fuel bound it runs out of fuel (the RecursionError) and never
reports a pointer loop; only an immediate self-pointer such as `C0 00` is
caught. -/
theorem c3_pointer_loop_not_detected :
    (∀ fuel, unpackLS fuel [0xc0, 0x02, 0xc0, 0x00] 0 =
      .error .recursionLimit) ∧
    unpackLS 1 [0xc0, 0x00] 0 = .error .pointerLoop := by
  refine ⟨fun fuel => ?_, by decide⟩
  rw [unpackLS, (lsWalk_cycle fuel).1]

/-- C4 (counterexample): decoding the wire name `01 30 00`, whose single
label is the digit `0`, fails with the invalid-label ValueError instead of
succeeding as the claim states. -/
theorem c4_wire_label_validated :
    unpackLS 5 [0x01, 0x30, 0x00] 0 = .error .invalidLabel := by decide

/-- C4 (amended): label-sequence decoding feeds the decoded labels through
the `LabelSequence` constructor, so the length and grammar invariants are
enforced on wire input too: whenever decoding succeeds, every returned
label satisfies them. -/
theorem c4_decode_validates (fuel : Nat) (buf : Bytes) (offset : Nat)
    (labels : List (List Nat)) (o : Nat)
    (h : unpackLS fuel buf offset = .ok (labels, o)) :
    ∀ l ∈ labels, l.length ≤ 63 ∧ labelGrammar l = true := by
  rw [unpackLS] at h
  cases hw : lsWalk fuel buf offset [offset] with
  | error e => rw [hw] at h; cases h
  | ok r =>
    obtain ⟨name, o'⟩ := r
    rw [hw] at h
    dsimp only at h
    cases hm : mkLabelSeq name with
    | error e => rw [hm] at h; cases h
    | ok n =>
      rw [hm] at h
      cases h
      obtain ⟨rfl, hall⟩ := mkLabelSeq_ok hm
      exact hall

/-- C4 (witness): decoding `01 41 00` (single label `A`) succeeds, and the
theorem instantiated there certifies the invariants of that label. -/
theorem c4_decode_validates_witness :
    List.length [65] ≤ 63 ∧ labelGrammar [65] = true :=
  c4_decode_validates 5 [0x01, 0x41, 0x00] 0 [[65]] 3 (by decide) [65]
    (by decide)

/-- C5 (counterexample): a question whose 16-bit qtype value 17 is not an
enumerated QTYPE fails decoding with the enum ValueError, rather than
decoding unchanged as the claim states. -/
theorem c5_unknown_qtype_fails :
    Question.unpack 1 [0x00, 0x00, 0x11, 0x00, 0x01] 0 =
      .error .invalidEnum := by decide

/-- C5 (amended): `Question.unpack` narrows qtype and qclass through the
`QuestionType` and `QuestionClass` enums.  For a root-name question with
arbitrary 16-bit values, decoding succeeds exactly when both values are
enum members, in which case they are preserved and `pack` restores the
original bytes; any non-member value fails with the enum ValueError. -/
theorem c5_enum_narrowing (f qt qc : Nat) (hqt : qt < 2 ^ 16)
    (hqc : qc < 2 ^ 16) :
    Question.unpack (f + 1) (0 :: (natToBytes qt 2 ++ natToBytes qc 2)) 0 =
      (if qt ∈ questionTypeValues then
        if qc ∈ questionClassValues then .ok (⟨[], qt, qc⟩, 5)
        else .error .invalidEnum
      else .error .invalidEnum) ∧
    Question.pack ⟨[], qt, qc⟩ =
      0 :: (natToBytes qt 2 ++ natToBytes qc 2) := by
  have hb : (0 :: (natToBytes qt 2 ++ natToBytes qc 2) : Bytes) =
      [0, qt / 256 % 256, qt % 256, qc / 256 % 256, qc % 256] := rfl
  rw [hb]
  constructor
  · have hls : unpackLS (f + 1)
        [0, qt / 256 % 256, qt % 256, qc / 256 % 256, qc % 256] 0 =
        .ok ([], 1) := by
      simp [unpackLS, lsWalk, mkLabelSeq]
    rw [Question.unpack, hls]
    dsimp only
    rw [show List.take 2 (List.drop 1
        [0, qt / 256 % 256, qt % 256, qc / 256 % 256, qc % 256]) =
        [qt / 256 % 256, qt % 256] from rfl]
    rw [show List.take 2 (List.drop (1 + 2)
        [0, qt / 256 % 256, qt % 256, qc / 256 % 256, qc % 256]) =
        [qc / 256 % 256, qc % 256] from rfl]
    rw [show bytesToNat [qt / 256 % 256, qt % 256] =
        qt / 256 % 256 * 256 + qt % 256 from by simp [bytesToNat]]
    rw [show qt / 256 % 256 * 256 + qt % 256 = qt from by omega]
    rw [show bytesToNat [qc / 256 % 256, qc % 256] =
        qc / 256 % 256 * 256 + qc % 256 from by simp [bytesToNat]]
    rw [show qc / 256 % 256 * 256 + qc % 256 = qc from by omega]
    rw [show mkQuestion [] qt qc = .ok ⟨[], qt, qc⟩ from by
      rw [mkQuestion, if_pos (show qt < 2 ^ 16 ∧ qc < 2 ^ 16 from ⟨hqt, hqc⟩)]]
  · simp only [Question.pack, packLS]
    rfl

/-- C5 (witness): the theorem applied at qtype 17 (a non-member) and
qclass 1. -/
theorem c5_enum_narrowing_witness :
    Question.unpack (0 + 1)
      (0 :: (natToBytes 17 2 ++ natToBytes 1 2)) 0 =
      (if 17 ∈ questionTypeValues then
        if 1 ∈ questionClassValues then .ok (⟨[], 17, 1⟩, 5)
        else .error .invalidEnum
      else .error .invalidEnum) ∧
    Question.pack ⟨[], 17, 1⟩ =
      0 :: (natToBytes 17 2 ++ natToBytes 1 2) :=
  c5_enum_narrowing 0 17 1 (by decide) (by decide)

/-- C8: the record codec reads and writes `ttl` as signed 32-bit big-endian
(`intFromBytesSigned [255,255,255,255] = -1`), but `__post_init__` bounds
`ttl` to `[0, 2^32 - 1]`, so decoding a wire record whose ttl bytes are
`FF FF FF FF` raises the out-of-bounds ValueError instead of returning -1;
direct construction with ttl = -1 fails the same way; and packing a
constructible ttl of 2^31 overflows `to_bytes(4, signed=True)`.  Negative
ttl values therefore do not round-trip, contradicting the claim.  A ttl of
60 decodes normally. -/
theorem c8_ttl_not_signed :
    intFromBytesSigned [255, 255, 255, 255] = -1 ∧
    ResourceRecord.unpack 1
      [0x00, 0x00, 0x01, 0x00, 0x01, 0xff, 0xff, 0xff, 0xff, 0x00, 0x00] 0 =
      .error .outOfRange ∧
    mkResourceRecord [] 1 1 (-1) [] = .error .outOfRange ∧
    ResourceRecord.pack ⟨[], 1, 1, (2 : Int) ^ 31, []⟩ = .error .overflow ∧
    ResourceRecord.unpack 1
      [0x00, 0x00, 0x01, 0x00, 0x01, 0x00, 0x00, 0x00, 0x3c, 0x00, 0x00] 0 =
      .ok (⟨[], 1, 1, 60, []⟩, 11) := by
  refine ⟨by decide, by decide, by decide, by decide, by decide⟩

/-- C9: `ResourceRecord.unpack` never checks that `rdlength` bytes are
actually present.  For every declared `rdlength` exceeding the remaining
bytes, decoding still succeeds, the returned data is silently truncated to
the bytes available, and the returned next offset `o + 10 + rdlength`
exceeds the buffer length; no buffer-too-short error arises. -/
theorem c9_rdlength_unchecked (f rdlen : Nat) (rest : Bytes)
    (hr : rdlen < 2 ^ 16) (hshort : rest.length < rdlen) :
    ResourceRecord.unpack (f + 1)
      ([0, 0, 1, 0, 1, 0, 0, 0, 0] ++ natToBytes rdlen 2 ++ rest) 0 =
      .ok (⟨[], 1, 1, 0, rest⟩, 11 + rdlen) ∧
    ([0, 0, 1, 0, 1, 0, 0, 0, 0] ++ natToBytes rdlen 2 ++ rest).length <
      11 + rdlen := by
  have hb : [0, 0, 1, 0, 1, 0, 0, 0, 0] ++ natToBytes rdlen 2 ++ rest =
      0 :: 0 :: 1 :: 0 :: 1 :: 0 :: 0 :: 0 :: 0 ::
        rdlen / 256 % 256 :: rdlen % 256 :: rest := rfl
  rw [hb]
  constructor
  · have hls : unpackLS (f + 1)
        (0 :: 0 :: 1 :: 0 :: 1 :: 0 :: 0 :: 0 :: 0 ::
          rdlen / 256 % 256 :: rdlen % 256 :: rest) 0 = .ok ([], 1) := by
      simp [unpackLS, lsWalk, mkLabelSeq]
    rw [ResourceRecord.unpack, hls]
    dsimp only
    rw [show bytesToNat (List.take 2 (List.drop 1
        (0 :: 0 :: 1 :: 0 :: 1 :: 0 :: 0 :: 0 :: 0 ::
          rdlen / 256 % 256 :: rdlen % 256 :: rest))) = 1 from rfl]
    rw [show bytesToNat (List.take 2 (List.drop (1 + 2)
        (0 :: 0 :: 1 :: 0 :: 1 :: 0 :: 0 :: 0 :: 0 ::
          rdlen / 256 % 256 :: rdlen % 256 :: rest))) = 1 from rfl]
    rw [show List.take 4 (List.drop (1 + 4)
        (0 :: 0 :: 1 :: 0 :: 1 :: 0 :: 0 :: 0 :: 0 ::
          rdlen / 256 % 256 :: rdlen % 256 :: rest)) = [0, 0, 0, 0] from rfl]
    rw [show intFromBytesSigned [0, 0, 0, 0] = 0 from by decide]
    rw [show List.take 2 (List.drop (1 + 8)
        (0 :: 0 :: 1 :: 0 :: 1 :: 0 :: 0 :: 0 :: 0 ::
          rdlen / 256 % 256 :: rdlen % 256 :: rest)) =
        [rdlen / 256 % 256, rdlen % 256] from rfl]
    rw [show bytesToNat [rdlen / 256 % 256, rdlen % 256] =
        rdlen / 256 % 256 * 256 + rdlen % 256 from by simp [bytesToNat]]
    rw [show rdlen / 256 % 256 * 256 + rdlen % 256 = rdlen from by omega]
    rw [show List.drop (1 + 10)
        (0 :: 0 :: 1 :: 0 :: 1 :: 0 :: 0 :: 0 :: 0 ::
          rdlen / 256 % 256 :: rdlen % 256 :: rest) = rest from rfl]
    rw [List.take_of_length_le (by omega)]
    simp [mkResourceRecord, answerTypeValues, answerClassValues]
    omega
  · simp
    omega

/-- C9 (witness): the theorem at rdlength 4 over a 2-byte remainder. -/
theorem c9_rdlength_unchecked_witness :
    ResourceRecord.unpack (0 + 1)
      ([0, 0, 1, 0, 1, 0, 0, 0, 0] ++ natToBytes 4 2 ++ [8, 8]) 0 =
      .ok (⟨[], 1, 1, 0, [8, 8]⟩, 11 + 4) ∧
    ([0, 0, 1, 0, 1, 0, 0, 0, 0] ++ natToBytes 4 2 ++ [8, 8]).length <
      11 + 4 :=
  c9_rdlength_unchecked 0 4 [8, 8] (by decide) (by decide)

/-- C6 (counterexample): applying an upstream reply whose answer record
has `atype = 5` (CNAME, a valid AnswerType) fails with the enum ValueError
from `QuestionClass(5)`, so the record is not assigned to any slot,
contradicting the claim that every answer record is assigned. -/
theorem c6_cname_answer_crashes :
    OpenRequest.add_response
      (openRequestInit ("client", 1)
        ⟨⟨0, 0, 0, 0, 0, 0, 0, 0, 0, 0, 0, 0, 0⟩, [⟨[[97]], 5, 1⟩], []⟩)
      ⟨⟨0, 0, 0, 0, 0, 0, 0, 0, 0, 0, 0, 0, 0⟩, [], [⟨[[97]], 5, 1, 0, []⟩]⟩ =
      .error .invalidEnum := by decide

/-- C6 (amended): for a reply with a single answer record,
`OpenRequest.add_response` builds the slot key as
`Question(name, qtype = atype, qclass = atype)` — the record's atype used
for both fields — and assigns the record to that slot, provided atype is a
member of both the QuestionType and QuestionClass enums; an atype outside
QuestionClass (5 through 16) makes the enum conversion raise ValueError
and nothing is assigned. -/
theorem c6_key_uses_atype_twice (o : OpenRequest) (h : Header)
    (qs : List Question) (a : ResourceRecord) :
    OpenRequest.add_response o ⟨h, qs, [a]⟩ =
      (if a.atype ∈ questionTypeValues then
        if a.atype ∈ questionClassValues then
          .ok ⟨o.source, o.request,
            dictInsert o.answers ⟨a.name, a.atype, a.atype⟩ (some a)⟩
        else .error .invalidEnum
      else .error .invalidEnum) := by
  rw [OpenRequest.add_response]
  dsimp only
  by_cases h1 : a.atype ∈ questionTypeValues
  · by_cases h2 : a.atype ∈ questionClassValues
    · have hlt : a.atype < 2 ^ 16 := by
        simp [questionClassValues] at h2
        omega
      rw [if_pos h1, if_pos h2]
      rw [show addAnswers o.answers [a] =
          .ok (dictInsert o.answers ⟨a.name, a.atype, a.atype⟩ (some a)) from by
        simp only [addAnswers]
        rw [if_pos h1, if_pos h2, mkQuestion,
          if_pos (show a.atype < 2 ^ 16 ∧ a.atype < 2 ^ 16 from ⟨hlt, hlt⟩)]]
    · rw [if_pos h1, if_neg h2]
      rw [show addAnswers o.answers [a] = .error .invalidEnum from by
        simp only [addAnswers]
        rw [if_pos h1, if_neg h2]]
  · rw [if_neg h1]
    rw [show addAnswers o.answers [a] = .error .invalidEnum from by
      simp only [addAnswers]
      rw [if_neg h1]]

/-- C1: for every open request whose header fields and list lengths are
within their wire ranges, the completion step of the main loop emits a
reply exactly when every answer slot is resolved, and the reply carries the
original packet identifier, `query_response = 1`, the original operation
code, zero `authoritative_answer`, `truncation` and `recursion_available`,
the original `recursion_desired`, response code 0 for opcode 0 and 4
otherwise, the original question list unchanged and in order, the resolved
records as answers, and counts auto-filled from the question and answer
lists. -/
theorem c1_forwarder_reply (o : OpenRequest)
    (hpid : o.request.header.packet_identifier < 2 ^ 16)
    (hop : o.request.header.operation_code < 2 ^ 4)
    (hrd : o.request.header.recursion_desired < 2 ^ 1)
    (hq : o.request.questions.length < 2 ^ 16)
    (ha : o.answers.length < 2 ^ 16) :
    ((∃ p, completionStep o = .ok (some p)) ↔ o.is_complete = true) ∧
    ∀ p, completionStep o = .ok (some p) →
      p.header = ⟨o.request.header.packet_identifier, 1,
        o.request.header.operation_code, 0, 0,
        o.request.header.recursion_desired, 0, 0,
        (if o.request.header.operation_code = 0 then 0 else 4),
        p.questions.length, p.answers.length, 0, 0⟩ ∧
      p.questions = o.request.questions ∧
      p.answers = o.answers.filterMap (fun s => s.2) := by
  by_cases hc : o.is_complete
  · have hresp := to_response_ok o hc hpid hop hrd hq ha
    rw [completionStep, if_pos hc, hresp]
    constructor
    · simp [hc]
    · intro p hp
      cases hp
      exact ⟨rfl, rfl, rfl⟩
  · rw [completionStep, if_neg hc]
    constructor
    · constructor
      · rintro ⟨p, hp⟩
        cases hp
      · intro h
        exact absurd h hc
    · intro p hp
      cases hp

/-- C1 (witness): the theorem applied at a concrete complete open request
holding one resolved slot shows a reply is emitted there. -/
theorem c1_forwarder_reply_witness :
    ∃ p, completionStep
      ⟨("client", 1),
       ⟨⟨1234, 0, 0, 0, 0, 1, 0, 0, 0, 1, 0, 0, 0⟩, [⟨[[97]], 1, 1⟩], []⟩,
       [(⟨[[97]], 1, 1⟩, some ⟨[[97]], 1, 1, 123, [1, 2, 3, 4]⟩)]⟩ =
        .ok (some p) :=
  (c1_forwarder_reply _ (by decide) (by decide) (by decide) (by decide)
    (by decide)).1.mpr (by decide)

/-- C2: for the bit-field record of the program (the header) and every
assignment of in-range field values, encoding then decoding restores every
field value exactly; `_check_bit_fields` succeeds on a record whose fields
are all in `[0, 2^width - 1]` and fails with the out-of-range ValueError
whenever any field is below 0 or above `2^width - 1`; and bit-field
decoding never produces an out-of-range value for any schema, buffer and
offset. -/
theorem c2_bitfield_round_trip :
    (∀ h : Header, h.valid → Header.unpack (Header.pack h) 0 = .ok (h, 12)) ∧
    (∀ fields : List (Nat × Int),
      (∀ p ∈ fields, 0 ≤ p.2 ∧ p.2 ≤ 2 ^ p.1 - 1) →
      checkBitFields fields = .ok ()) ∧
    (∀ fields : List (Nat × Int),
      (∃ p ∈ fields, p.2 < 0 ∨ 2 ^ p.1 - 1 < p.2) →
      checkBitFields fields = .error .outOfRange) ∧
    (∀ ws buf offset vs o', (∀ b ∈ buf, b < 256) →
      unpackBits ws buf offset = .ok (vs, o') →
      ∀ p ∈ ws.zip vs, p.2 < 2 ^ p.1) :=
  ⟨fun h hv => header_roundtrip h hv,
   checkBitFields_ok,
   checkBitFields_err,
   fun ws buf offset vs o' hbuf heq =>
     unpackBits_in_range ws buf offset hbuf vs o' heq⟩

/-- C2 (witness): the theorem at a populated header, at a negative and an
in-range field list, and at a concrete one-field decode. -/
theorem c2_bitfield_round_trip_witness :
    Header.unpack (Header.pack ⟨4, 1, 8, 0, 1, 0, 1, 0, 15, 16, 23, 42, 108⟩)
      0 = .ok (⟨4, 1, 8, 0, 1, 0, 1, 0, 15, 16, 23, 42, 108⟩, 12) ∧
    checkBitFields [(16, 1234)] = .ok () ∧
    checkBitFields [(16, -1)] = .error .outOfRange ∧
    ∀ p ∈ [16].zip [4], p.2 < 2 ^ p.1 :=
  ⟨c2_bitfield_round_trip.1 _ (by decide),
   c2_bitfield_round_trip.2.1 _ (by decide),
   c2_bitfield_round_trip.2.2.1 _ ⟨(16, -1), by decide, by decide⟩,
   c2_bitfield_round_trip.2.2.2 [16] [0, 4] 0 [4] 2 (by decide)
     (by simp [unpackBits, totalBytes, unpackFieldsLoop, fillBits,
       bytesToNat])⟩

/-- C7: every valid header packs to exactly 12 bytes and decoding the
encoding restores the header; in particular the header with packet
identifier 1234, query_response 1 and all other fields zero encodes to
`04 D2 80 00 00 00 00 00 00 00 00 00`. -/
theorem c7_header_round_trip :
    (∀ h : Header, h.valid → (Header.pack h).length = 12 ∧
      Header.unpack (Header.pack h) 0 = .ok (h, 12)) ∧
    Header.pack ⟨1234, 1, 0, 0, 0, 0, 0, 0, 0, 0, 0, 0, 0⟩ =
      [0x04, 0xD2, 0x80, 0x00, 0x00, 0x00, 0x00, 0x00, 0x00, 0x00, 0x00,
       0x00] :=
  ⟨fun h hv => ⟨header_pack_length h hv, header_roundtrip h hv⟩, by decide⟩

/-- C7 (witness): the round-trip component applied at the minimal header of
the concrete scenario. -/
theorem c7_header_round_trip_witness :
    (Header.pack ⟨1234, 1, 0, 0, 0, 0, 0, 0, 0, 0, 0, 0, 0⟩).length = 12 ∧
    Header.unpack (Header.pack ⟨1234, 1, 0, 0, 0, 0, 0, 0, 0, 0, 0, 0, 0⟩)
      0 = .ok (⟨1234, 1, 0, 0, 0, 0, 0, 0, 0, 0, 0, 0, 0⟩, 12) :=
  c7_header_round_trip.1 _ (by decide)

/-- C10: the answer slots are keyed by question value, so a request whose
question list contains duplicates holds one slot per distinct question
(fewer slots than questions); the default-fill path resolves every slot
and the request completes, and the synthesized reply carries the original
question list but strictly fewer answer records than questions. -/
theorem c10_duplicate_questions (src : String × Nat) (hdr : Header)
    (qs : List Question) (hdup : ¬ qs.Nodup)
    (hpid : hdr.packet_identifier < 2 ^ 16)
    (hop : hdr.operation_code < 2 ^ 4)
    (hrd : hdr.recursion_desired < 2 ^ 1)
    (hlen : qs.length < 2 ^ 16) :
    ((openRequestInit src ⟨hdr, qs, []⟩).answers.map Prod.fst).Nodup ∧
    (∀ x, x ∈ (openRequestInit src ⟨hdr, qs, []⟩).answers.map Prod.fst ↔
      x ∈ qs) ∧
    (openRequestInit src ⟨hdr, qs, []⟩).answers.length < qs.length ∧
    ∃ o' p, fillDefaults (openRequestInit src ⟨hdr, qs, []⟩) = .ok o' ∧
      o'.is_complete = true ∧ o'.to_response = .ok p ∧
      p.questions = qs ∧ p.answers.length < qs.length := by
  obtain ⟨hnd, hmem⟩ := slots_spec qs [] (by simp)
  have hmem' : ∀ x,
      x ∈ (qs.foldl (fun m q => dictInsert m q none) []).map Prod.fst ↔
      x ∈ qs := fun x => by rw [hmem x]; simp
  have hlenslots :
      (qs.foldl (fun m q => dictInsert m q none) []).length < qs.length := by
    have hk := keys_length_lt _ qs hnd hmem' hdup
    simpa using hk
  obtain ⟨m', hm'⟩ := fillLoop_ok qs
    (qs.foldl (fun m q => dictInsert m q none) []) 0 (by omega)
  have hfd : fillDefaults (openRequestInit src ⟨hdr, qs, []⟩) =
      .ok ⟨src, ⟨hdr, qs, []⟩, m'⟩ := by
    rw [fillDefaults]
    dsimp only [openRequestInit]
    rw [hm']
  have hkeys : m'.map Prod.fst =
      (qs.foldl (fun m q => dictInsert m q none) []).map Prod.fst :=
    fillLoop_keys qs _ 0 m' hm' (fun q hq => (hmem' q).mpr hq)
  have hvals := fillLoop_vals qs _ 0 m' hnd hm'
  have hsome : ∀ p ∈ m', p.2.isSome := by
    intro p hp
    by_cases hin : p.1 ∈ qs
    · exact (hvals p hp).1 hin
    · exact absurd ((hmem' p.1).mp
        (List.mem_map_of_mem Prod.fst ((hvals p hp).2 hin))) hin
  have hcomp : (⟨src, ⟨hdr, qs, []⟩, m'⟩ : OpenRequest).is_complete = true := by
    rw [OpenRequest.is_complete]
    dsimp only
    rw [List.all_eq_true]
    exact fun p hp => hsome p hp
  have hm'len : m'.length < qs.length := by
    have hkl := congrArg List.length hkeys
    simp only [List.length_map] at hkl
    omega
  have hresp := to_response_ok ⟨src, ⟨hdr, qs, []⟩, m'⟩ hcomp hpid hop hrd
    hlen (lt_trans hm'len hlen)
  refine ⟨hnd, fun x => hmem' x, hlenslots,
    ⟨src, ⟨hdr, qs, []⟩, m'⟩, _, hfd, hcomp, hresp, rfl, ?_⟩
  dsimp only
  rw [filterMap_isSome_length m' hsome]
  exact hm'len

/-- C10 (witness): the theorem applied at a request asking the same
question twice. -/
theorem c10_duplicate_questions_witness :
    ∃ o' p, fillDefaults (openRequestInit ("client", 1)
      ⟨⟨0, 0, 0, 0, 0, 0, 0, 0, 0, 0, 0, 0, 0⟩,
       [⟨[[97]], 1, 1⟩, ⟨[[97]], 1, 1⟩], []⟩) = .ok o' ∧
      o'.is_complete = true ∧ o'.to_response = .ok p ∧
      p.questions = [⟨[[97]], 1, 1⟩, ⟨[[97]], 1, 1⟩] ∧
      p.answers.length < 2 :=
  (c10_duplicate_questions ("client", 1) _ _ (by decide) (by decide)
    (by decide) (by decide) (by decide)).2.2.2

end DnsSpec
